import Mathlib

/-!
Verification of the contract-fuzzer core (pyfuzz) against its design
specification.  The Python sources `pyfuzz/fuzzer/trace.py` and
`pyfuzz/fuzzer/fuzzer.py` are shallowly embedded: pure computations become
Lean functions, in-place mutation of Python objects is made explicit by a
store of transactions addressed by references, and Python exceptions are
modelled with `Except`.  Nondeterministic collaborators (random choice,
seed-based generation, the EVM backend, the static analyzer, the trace
analyzer, the state encoder) are supplied as oracle inputs, and the
theorems quantify over all oracle values.
-/

namespace PyFuzz

/-! ## Trace analyzer (pyfuzz/fuzzer/trace.py) -/

/-- One entry of an EVM execution trace: a dict with at least the keys
"op" (mnemonic) and "pc" (program counter). -/
structure TraceState where
  op : String
  pc : Nat
deriving DecidableEq

/-- The two nested loops of `TraceAnalyzer.path_variaty` that collect
`state["pc"]` for every trace entry with `state["op"][:4] == "JUMP"`. -/
def jumpList (traces : List (List TraceState)) : List Nat :=
  traces.flatMap fun tr => (tr.filter fun st => st.op.take 4 = "JUMP").map TraceState.pc

/-- `TraceAnalyzer.path_variaty` (trace.py lines 22-43).  `list(set(x))`
becomes `List.dedup`; Python float division becomes division in `ℚ`. -/
def path_variaty (ptraces ctraces : List (List TraceState)) : ℚ :=
  let pJumps := (jumpList ptraces).dedup
  let cJumps := (jumpList ctraces).dedup
  let difJumps := (pJumps ++ cJumps).dedup
  if difJumps.length = 0 then 0
  else
    let comJumpNum : ℤ := (pJumps.length : ℤ) + cJumps.length - difJumps.length
    ((pJumps.length : ℚ) + cJumps.length - 2 * (comJumpNum : ℚ)) / (difJumps.length : ℚ)

/-- The set of program counters of the JUMP-class trace entries of a trace
list, as a finite set ("the set of pc values of trace entries whose op
mnemonic starts with JUMP"; "JUMP" has four characters, so a mnemonic
starts with it exactly when its first four characters are "JUMP"). -/
def jumpSet (traces : List (List TraceState)) : Finset Nat :=
  (jumpList traces).toFinset

theorem jumpSet_mem (traces : List (List TraceState)) (n : Nat) :
    n ∈ jumpSet traces ↔ ∃ tr ∈ traces, ∃ st ∈ tr, st.op.take 4 = "JUMP" ∧ st.pc = n := by
  simp only [jumpSet, List.mem_toFinset, jumpList, List.mem_flatMap, List.mem_map,
    List.mem_filter]
  constructor
  · rintro ⟨tr, htr, st, ⟨hst, hop⟩, hpc⟩
    exact ⟨tr, htr, st, hst, by simpa using hop, hpc⟩
  · rintro ⟨tr, htr, st, hst, hop, hpc⟩
    exact ⟨tr, htr, st, ⟨hst, by simpa using hop⟩, hpc⟩

theorem toFinset_of_dedup {α : Type} [DecidableEq α] (l : List α) :
    l.dedup.toFinset = l.toFinset := by
  ext a
  simp

/-- Shared helper: `path_variaty` equals the closed formula over the jump
sets.  Used by the claim theorems below. -/
theorem path_variaty_eq (pt ct : List (List TraceState)) :
    path_variaty pt ct =
      if jumpSet pt ∪ jumpSet ct = ∅ then 0
      else
        (((jumpSet pt).card : ℚ) + ((jumpSet ct).card : ℚ) -
            2 * (((jumpSet pt).card : ℚ) + ((jumpSet ct).card : ℚ) -
              ((jumpSet pt ∪ jumpSet ct).card : ℚ))) /
          ((jumpSet pt ∪ jumpSet ct).card : ℚ) := by
  have hp : (jumpList pt).dedup.length = (jumpSet pt).card :=
    (List.card_toFinset (jumpList pt)).symm
  have hc : (jumpList ct).dedup.length = (jumpSet ct).card :=
    (List.card_toFinset (jumpList ct)).symm
  have hd : ((jumpList pt).dedup ++ (jumpList ct).dedup).dedup.length
      = (jumpSet pt ∪ jumpSet ct).card := by
    rw [← List.card_toFinset, List.toFinset_append, toFinset_of_dedup, toFinset_of_dedup]
    rfl
  simp only [path_variaty, hp, hc, hd, Finset.card_eq_zero]
  rcases eq_or_ne (jumpSet pt ∪ jumpSet ct) ∅ with h | h
  · simp [h]
  · simp only [h, if_neg h]
    push_cast
    ring_nf

/-- C1: for every pair of trace lists, `path_variaty` computes the jump-pc
sets `pJumps`, `cJumps` of the two trace lists and their union `diff`,
returns 0 when `diff` is empty and otherwise exactly
`(|pJumps| + |cJumps| - 2 * common) / |diff|` with
`common = |pJumps| + |cJumps| - |diff|`. -/
theorem path_variaty_spec (pt ct : List (List TraceState)) :
    path_variaty pt ct =
      if jumpSet pt ∪ jumpSet ct = ∅ then 0
      else
        (((jumpSet pt).card : ℚ) + ((jumpSet ct).card : ℚ) -
            2 * (((jumpSet pt).card : ℚ) + ((jumpSet ct).card : ℚ) -
              ((jumpSet pt ∪ jumpSet ct).card : ℚ))) /
          ((jumpSet pt ∪ jumpSet ct).card : ℚ) :=
  path_variaty_eq pt ct

def tracesA : List (List TraceState) := [[⟨"JUMP", 0⟩]]

def tracesB : List (List TraceState) := [[⟨"JUMPI", 1⟩]]

theorem jumpSet_tracesA : jumpSet tracesA = {0} := by decide

theorem jumpSet_tracesB : jumpSet tracesB = {1} := by decide

/-- C2 counterexample: the two singleton trace lists have non-empty,
disjoint jump sets, yet `path_variaty tracesA tracesB = 1` and
`-path_variaty tracesB tracesA = -1`, so the claimed sign antisymmetry
fails (the formula is symmetric in its two arguments). -/
theorem path_variaty_antisym_cex :
    (jumpSet tracesA).Nonempty ∧ (jumpSet tracesB).Nonempty ∧
      jumpSet tracesA ∩ jumpSet tracesB = ∅ ∧
      path_variaty tracesA tracesB ≠ -path_variaty tracesB tracesA := by
  have hu : (({0} : Finset ℕ) ∪ {1}) = {0, 1} := by decide
  have hu' : (({1} : Finset ℕ) ∪ {0}) = {0, 1} := by decide
  have hc0 : (({0} : Finset ℕ)).card = 1 := rfl
  have hc1 : (({1} : Finset ℕ)).card = 1 := rfl
  have hc01 : (({0, 1} : Finset ℕ)).card = 2 := rfl
  have hne : ¬(({0, 1} : Finset ℕ) = ∅) := by decide
  have hAB : path_variaty tracesA tracesB = 1 := by
    rw [path_variaty_eq, jumpSet_tracesA, jumpSet_tracesB, hu, if_neg hne, hc0, hc1, hc01]
    norm_num
  have hBA : path_variaty tracesB tracesA = 1 := by
    rw [path_variaty_eq, jumpSet_tracesA, jumpSet_tracesB, hu', if_neg hne, hc0, hc1, hc01]
    norm_num
  refine ⟨⟨0, by decide⟩, ⟨1, by decide⟩, by decide, ?_⟩
  rw [hAB, hBA]
  norm_num

/-- C2 amended: `path_variaty` is symmetric in its two arguments (not sign
antisymmetric); for trace lists with non-empty disjoint jump sets both
orientations give 1 (so the claimed identity
`path_variaty A B = -path_variaty B A` holds only when the value is 0);
and `path_variaty A A = 0` for every trace list `A`. -/
theorem path_variaty_symm_props :
    (∀ A B, path_variaty A B = path_variaty B A) ∧
    (∀ A B, (jumpSet A).Nonempty → (jumpSet B).Nonempty →
      jumpSet A ∩ jumpSet B = ∅ → path_variaty A B = 1) ∧
    (∀ A, path_variaty A A = 0) := by
  refine ⟨?_, ?_, ?_⟩
  · intro A B
    rw [path_variaty_eq, path_variaty_eq, Finset.union_comm]
    ring_nf
  · intro A B hA hB hdisj
    rw [path_variaty_eq]
    have hdis : Disjoint (jumpSet A) (jumpSet B) :=
      Finset.disjoint_left.mpr fun a ha hb =>
        (Finset.eq_empty_iff_forall_not_mem.mp hdisj a) (Finset.mem_inter.mpr ⟨ha, hb⟩)
    have hcard : (jumpSet A ∪ jumpSet B).card = (jumpSet A).card + (jumpSet B).card :=
      Finset.card_union_of_disjoint hdis
    have hne : jumpSet A ∪ jumpSet B ≠ ∅ := by
      intro h
      rcases hA with ⟨a, ha⟩
      exact (Finset.eq_empty_iff_forall_not_mem.mp h a) (Finset.mem_union_left _ ha)
    have hpos : (0 : ℚ) < ((jumpSet A).card : ℚ) + ((jumpSet B).card : ℚ) := by
      have : 0 < (jumpSet A).card := Finset.card_pos.mpr hA
      have h2 : (0 : ℚ) < ((jumpSet A).card : ℚ) := by exact_mod_cast this
      have h3 : (0 : ℚ) ≤ ((jumpSet B).card : ℚ) := by positivity
      linarith
    rw [if_neg hne, hcard]
    push_cast
    field_simp
  · intro A
    rw [path_variaty_eq]
    rcases eq_or_ne (jumpSet A ∪ jumpSet A) ∅ with h | h
    · simp [h]
    · rw [if_neg h, Finset.union_self]
      ring_nf

/-- Witness for the amended C2 theorem at concrete inputs. -/
theorem path_variaty_symm_props_witness :
    path_variaty tracesA tracesB = path_variaty tracesB tracesA ∧
      path_variaty tracesA tracesB = 1 ∧ path_variaty tracesA tracesA = 0 :=
  ⟨path_variaty_symm_props.1 tracesA tracesB,
   path_variaty_symm_props.2.1 tracesA tracesB ⟨0, by decide⟩ ⟨1, by decide⟩ (by decide),
   path_variaty_symm_props.2.2 tracesA⟩

/-! ## Mutation engine (Fuzzer.mutate, fuzzer.py lines 201-290)

Python objects are aliased: `txList = state.txList + []` copies only the
slot list, not the `Transaction` objects.  We therefore model the heap
explicitly: a store (list) of transactions, while `txList` holds `Option`
references (indices) into the store.  `mutate` returns the store after the
call together with the optional new state; a `none` second component is
the Python `return None`. -/

/-- A `Transaction` (pyfuzz/fuzzer/interface.py): the fields read or
written by `Fuzzer.mutate` and `Fuzzer.loadSeed`. -/
structure Tx where
  hash : String
  args : List Int
  sender : String
  value : Int
  typedArgs : List (String × Int)
deriving DecidableEq

instance : Inhabited Tx := ⟨⟨"", [], "", 0, []⟩⟩

/-- Per-function entry of the static `AnalysisReport.func_map`:
`features["call"]`, `_vars_written` and `_vars_read`. -/
structure FuncReport where
  callFeature : Nat
  varsWritten : List String
  varsRead : List String
deriving DecidableEq

/-- The contract-level read-only context of `mutate`: the ABI function
hash list, the static analysis report, the payability table of
`contractAbi.interface`, the account pool, the default account and the
configured `max_call_num` (`self.maxCallNum = TRAIN_CONFIG["max_call_num"]`). -/
structure Env where
  funcHashList : List String
  funcMap : String → Option FuncReport
  payableMap : String → Bool
  accounts : List String
  defaultAccount : String
  maxCallNum : Nat

/-- The `State` of pyfuzz/trainer/model.py as used by `mutate`: the static
analysis report (opaque) and the fixed-length transaction list, whose
slots hold references into the transaction store. -/
structure State where
  staticAnalysis : Nat
  txList : List (Option Nat)
deriving DecidableEq

/-- A decoded `Action`: both fields are Python ints. -/
structure Action where
  actionId : Int
  actionArg : Int

/-- Oracle inputs standing for the random and seed-driven collaborators
used by `mutate`: `random.choice` over the candidate list, the data drawn
by `ContractAbi.generateTx`/`generateTxArgs`/`generateTxValue`, and the
stream of `random.randint` indices of the sender retry loop.  The `seeds`
dictionary assembled at lines 213-218 is consumed only by these
collaborators and is absorbed into the oracle. -/
structure MutOracle where
  choiceIdx : Nat
  genTxArgs : List Int
  genTxTypedArgs : List (String × Int)
  genTxValue : Int
  genArgs : List Int
  randIdx : Nat → Nat
  genVal : Nat → Int

/-- Modelled from the spec: `ContractAbi.generateTx` lives in
pyfuzz/fuzzer/interface.py, which is not among the analysed sources.  Per
section 4.1 of the design it synthesizes a fresh transaction calling the
selected function with seed-derived arguments and value; the drawn data is
taken from the oracle and the selected function hash is recorded in the
transaction. -/
def generateTx (funcHash sender : String) (o : MutOracle) : Tx :=
  { hash := funcHash, args := o.genTxArgs, sender := sender,
    value := o.genTxValue, typedArgs := o.genTxTypedArgs }

/-- The bounded resample-until-distinct loop
`while v == cur and attempt > 0: v = sample(); attempt -= 1`,
started with `v = cur` and `attempt = 100`. -/
def retryDistinct {α : Type} [DecidableEq α] (cur : α) (sample : Nat → α) :
    Nat → α → α
  | 0, v => v
  | n + 1, v => if v = cur then retryDistinct cur sample n (sample n) else v

/-- The hash of the transaction at slot `i`
(`txHash = txList[actionArg].hash` when the slot is occupied). -/
def slotHash (store : List Tx) (txList : List (Option Nat)) (i : Nat) : Option String :=
  match txList.getD i none with
  | some r => some ((store.getD r default).hash)
  | none => none

/-- The effective target index after the gap-filling pre-pass: the last
index when the last slot of `txList` is empty, the decoded index
otherwise. -/
def effIndex (txList : List (Option Nat)) (i : Nat) : Nat :=
  if txList.getD (txList.length - 1) none = none then txList.length - 1 else i

/-- The union of the `_vars_read` sets of the transactions of `txList` at
indices in `range(j + 1, TRAIN_CONFIG["max_call_num"])` whose hash has a
`func_map` entry (mutate lines 242-249). -/
def laterReads (env : Env) (store : List Tx) (txList : List (Option Nat)) (j : Nat) :
    Finset String :=
  (Finset.Ico (j + 1) env.maxCallNum).biUnion fun i =>
    match txList.getD i none with
    | none => ∅
    | some r =>
      match env.funcMap ((store.getD r default).hash) with
      | none => ∅
      | some fr => fr.varsRead.toFinset

/-- The candidate filter of the Replace branch (mutate lines 236-252): a
function hash qualifies when it differs from the current target hash, has
a `func_map` entry, and either its call feature is positive or its written
variables meet the read set of the later transactions. -/
def replaceCandidate (env : Env) (txHash : Option String) (readSet : Finset String)
    (h : String) : Bool :=
  if some h = txHash then false
  else
    match env.funcMap h with
    | none => false
    | some fr =>
      decide (0 < fr.callFeature) || decide (0 < (fr.varsWritten.toFinset ∩ readSet).card)

theorem replaceCandidate_true_iff (env : Env) (txHash : Option String)
    (readSet : Finset String) (h : String) :
    replaceCandidate env txHash readSet h = true ↔
      some h ≠ txHash ∧ ∃ fr, env.funcMap h = some fr ∧
        (0 < fr.callFeature ∨ (fr.varsWritten.toFinset ∩ readSet).Nonempty) := by
  unfold replaceCandidate
  rcases eq_or_ne (some h) txHash with he | he
  · simp [he]
  · rw [if_neg he]
    cases hfm : env.funcMap h with
    | none => simp [he, hfm]
    | some fr =>
      simp only [hfm, Bool.or_eq_true, decide_eq_true_eq, ne_eq, he, not_false_iff, true_and]
      constructor
      · rintro (hc | hcard)
        · exact ⟨fr, rfl, Or.inl hc⟩
        · exact ⟨fr, rfl, Or.inr (Finset.card_pos.mp hcard)⟩
      · rintro ⟨fr', hfr', hc | hne⟩
        · cases Option.some.inj hfr'
          exact Or.inl hc
        · cases Option.some.inj hfr'
          exact Or.inr (Finset.card_pos.mpr hne)

/-- The Python membership test `txHash in funcHashList`, where `txHash`
may be `None` (never a member of a list of strings). -/
def optContains (l : List String) : Option String → Bool
  | some h => l.contains h
  | none => false

/-- `Fuzzer.mutate` (fuzzer.py lines 201-290).  `state.txList + []` copies
the slot list but shares the transaction objects, so the three Modify
branches update the store in place while Replace allocates a fresh
transaction at the end of the store.  Every `return None` of the source
becomes a `(store, none)` result (no branch mutates the store before
failing). -/
def mutate (env : Env) (o : MutOracle) (store : List Tx) (s : State) (a : Action) :
    List Tx × Option State :=
  let txList := s.txList
  if a.actionArg < 0 ∨ (env.maxCallNum : Int) ≤ a.actionArg then (store, none)
  else
    let i := a.actionArg.toNat
    let txHash := slotHash store txList i
    -- manual checks: gap-filling override of actionId / actionArg
    let actionId : Int :=
      if txList.getD (txList.length - 1) none = none then 0
      else if txHash = none then 0
      else a.actionId
    let j := effIndex txList i
    if actionId = 0 then
      if env.funcHashList.length ≤ 0 ∨
          (env.funcHashList.length = 1 ∧ optContains env.funcHashList txHash = true)
        then (store, none)
      else
        let readSet := laterReads env store s.txList j
        let candidateFunc := env.funcHashList.filter (replaceCandidate env txHash readSet)
        if candidateFunc.length = 0 then (store, none)
        else
          let selectedFuncHash := candidateFunc.getD (o.choiceIdx % candidateFunc.length) ""
          let tx := generateTx selectedFuncHash env.defaultAccount o
          (store ++ [tx],
           some { staticAnalysis := s.staticAnalysis,
                  txList := txList.set j (some store.length) })
    else if actionId = 1 then
      -- modify args
      match txList.getD j none with
      | none => (store, none)
      | some r =>
        (store.set r { store.getD r default with args := o.genArgs },
         some { staticAnalysis := s.staticAnalysis, txList := txList })
    else if actionId = 2 then
      -- modify sender
      match txList.getD j none with
      | none => (store, none)
      | some r =>
        let cur := (store.getD r default).sender
        let sample : Nat → String := fun n =>
          env.accounts.getD (o.randIdx n % env.accounts.length) ""
        let sender := retryDistinct cur sample 100 cur
        (store.set r { store.getD r default with sender := sender },
         some { staticAnalysis := s.staticAnalysis, txList := txList })
    else if actionId = 3 then
      -- modify value
      match txList.getD j none with
      | none => (store, none)
      | some r =>
        if env.payableMap ((store.getD r default).hash) = false then (store, none)
        else
          let cur := (store.getD r default).value
          let value := retryDistinct cur o.genVal 100 cur
          (store.set r { store.getD r default with value := value },
           some { staticAnalysis := s.staticAnalysis, txList := txList })
    else (store, none)

/-- A shared trivial oracle for concrete instantiations. -/
def oTriv : MutOracle :=
  { choiceIdx := 0, genTxArgs := [], genTxTypedArgs := [], genTxValue := 0,
    genArgs := [], randIdx := fun _ => 0, genVal := fun _ => 0 }

/-- C8: a ModifyValue action against an occupied slot whose function is
not payable, in a state whose last slot is occupied (so no gap-filling
override fires), fails: no new state is produced and the store — hence
every transaction reachable from s.txList — is untouched. -/
theorem mutate_modifyValue_notPayable (env : Env) (o : MutOracle) (store : List Tx)
    (s : State) (a : Action) (r : Nat)
    (hid : a.actionId = 3)
    (h0 : 0 ≤ a.actionArg) (hlt : a.actionArg < (env.maxCallNum : Int))
    (hlast : s.txList.getD (s.txList.length - 1) none ≠ none)
    (hslot : s.txList.getD a.actionArg.toNat none = some r)
    (hpay : env.payableMap ((store.getD r default).hash) = false) :
    mutate env o store s a = (store, none) := by
  have hneg : ¬(a.actionArg < 0 ∨ (env.maxCallNum : Int) ≤ a.actionArg) := by
    push_neg
    exact ⟨h0, hlt⟩
  have hsh : slotHash store s.txList a.actionArg.toNat
      = some ((store.getD r default).hash) := by
    unfold slotHash
    rw [hslot]
  have heff : effIndex s.txList a.actionArg.toNat = a.actionArg.toNat := by
    unfold effIndex
    rw [if_neg hlast]
  simp only [mutate, hneg, if_false, hsh, heff, hlast, hid, hslot, hpay,
    reduceCtorEq, if_neg, ite_false, ite_true]
  norm_num

/-- C9: when the last slot of txList is empty, any in-bounds action is
overridden to a Replace at the last index: on success the fresh
transaction is placed at the last slot and every other slot is unchanged. -/
theorem mutate_gap_override (env : Env) (o : MutOracle) (store : List Tx) (s : State)
    (a : Action)
    (hlen : s.txList.length = env.maxCallNum) (hpos : 0 < env.maxCallNum)
    (h0 : 0 ≤ a.actionArg) (hlt : a.actionArg < (env.maxCallNum : Int))
    (hlast : s.txList.getD (s.txList.length - 1) none = none) :
    ∀ store' s', mutate env o store s a = (store', some s') →
      ∃ tx, store' = store ++ [tx] ∧
        s'.txList = s.txList.set (env.maxCallNum - 1) (some store.length) ∧
        s'.txList.getD (env.maxCallNum - 1) none = some store.length ∧
        ∀ k, k < env.maxCallNum - 1 → s'.txList.getD k none = s.txList.getD k none := by
  intro store' s' hmut
  have hneg : ¬(a.actionArg < 0 ∨ (env.maxCallNum : Int) ≤ a.actionArg) := by
    push_neg
    exact ⟨h0, hlt⟩
  have heff : effIndex s.txList a.actionArg.toNat = s.txList.length - 1 := by
    unfold effIndex
    rw [if_pos hlast]
  simp only [mutate, hneg, if_false, hlast, heff, ite_true, if_pos] at hmut
  by_cases hearly : env.funcHashList.length ≤ 0 ∨
      (env.funcHashList.length = 1 ∧
        optContains env.funcHashList (slotHash store s.txList a.actionArg.toNat) = true)
  · rw [if_pos hearly] at hmut
    simp at hmut
  · rw [if_neg hearly] at hmut
    by_cases hcand : (env.funcHashList.filter
        (replaceCandidate env (slotHash store s.txList a.actionArg.toNat)
          (laterReads env store s.txList (s.txList.length - 1)))).length = 0
    · rw [if_pos hcand] at hmut
      simp at hmut
    · rw [if_neg hcand] at hmut
      obtain ⟨h1, h2⟩ := Prod.mk.injEq .. ▸ hmut
      obtain rfl := h1.symm
      obtain rfl := (Option.some.inj h2).symm
      refine ⟨_, rfl, ?_, ?_, ?_⟩
      · rw [hlen]
      · have hlt' : env.maxCallNum - 1 < s.txList.length := by
          rw [hlen]
          omega
        simp [hlen, List.getD_eq_getElem?_getD, List.getElem?_set_self hlt']
      · intro k hk
        have hk' : env.maxCallNum - 1 ≠ k := by omega
        simp [hlen, List.getD_eq_getElem?_getD, List.getElem?_set_ne hk']

def envW8 : Env :=
  { funcHashList := [], funcMap := fun _ => none, payableMap := fun _ => false,
    accounts := [("a")], defaultAccount := ("a"), maxCallNum := 1 }

def storeW8 : List Tx := [⟨("f"), [], ("a"), 0, []⟩]

def sW8 : State := ⟨0, [some 0]⟩

/-- Witness for the C8 theorem at a concrete non-payable slot. -/
theorem mutate_modifyValue_notPayable_witness :
    (0 : Int) ≤ 0 ∧ (0 : Int) < (envW8.maxCallNum : Int) ∧
      sW8.txList.getD (sW8.txList.length - 1) none ≠ none ∧
      mutate envW8 oTriv storeW8 sW8 ⟨3, 0⟩ = (storeW8, none) :=
  ⟨le_refl 0, by decide, by decide,
   mutate_modifyValue_notPayable envW8 oTriv storeW8 sW8 ⟨3, 0⟩ 0 rfl (le_refl 0)
     (by decide) (by decide) rfl rfl⟩

def envW9 : Env :=
  { funcHashList := [("g")],
    funcMap := fun h => if h = ("g") then some ⟨1, [], []⟩ else none,
    payableMap := fun _ => true, accounts := [("a")], defaultAccount := ("a"),
    maxCallNum := 1 }

def sW9 : State := ⟨0, [none]⟩

/-- Witness for the C9 theorem: the decoded action is ModifyArgs at index
0, the last (and only) slot is empty, and the mutation indeed produces a
Replace-synthesized transaction at the last index. -/
theorem mutate_gap_override_witness :
    (0 : Int) ≤ 0 ∧ sW9.txList.getD (sW9.txList.length - 1) none = none ∧
      (∃ tx, ([(⟨("g"), [], ("a"), 0, []⟩ : Tx)] : List Tx) = [] ++ [tx] ∧
        (⟨0, [some 0]⟩ : State).txList =
          sW9.txList.set (envW9.maxCallNum - 1) (some (([] : List Tx)).length) ∧
        (⟨0, [some 0]⟩ : State).txList.getD (envW9.maxCallNum - 1) none =
          some (([] : List Tx)).length ∧
        ∀ k, k < envW9.maxCallNum - 1 →
          (⟨0, [some 0]⟩ : State).txList.getD k none = sW9.txList.getD k none) :=
  ⟨le_refl 0, rfl,
   mutate_gap_override envW9 oTriv [] sW9 ⟨1, 0⟩ rfl (by decide) (le_refl 0) (by decide)
     rfl [⟨("g"), [], ("a"), 0, []⟩] ⟨0, [some 0]⟩ (by decide)⟩

/-- C3: for a Replace action with an in-bounds index, a successful
mutation places a fresh transaction whose function hash comes from the
candidate filter — it has a func_map entry, a positive call feature or a
written-variable set meeting the later read sets, and differs from the
hash previously at the (effective) target index — and if no function hash
qualifies, the mutation fails with no new state. -/
theorem mutate_replace_spec (env : Env) (o : MutOracle) (store : List Tx) (s : State)
    (a : Action)
    (hid : a.actionId = 0)
    (h0 : 0 ≤ a.actionArg) (hlt : a.actionArg < (env.maxCallNum : Int)) :
    (∀ store' s', mutate env o store s a = (store', some s') →
      ∃ h fr, h ∈ env.funcHashList ∧ env.funcMap h = some fr ∧
        (0 < fr.callFeature ∨
          (fr.varsWritten.toFinset ∩
            laterReads env store s.txList (effIndex s.txList a.actionArg.toNat)).Nonempty) ∧
        (∀ h₀, slotHash store s.txList (effIndex s.txList a.actionArg.toNat) = some h₀ →
          h ≠ h₀) ∧
        store' = store ++ [generateTx h env.defaultAccount o] ∧
        s'.txList = s.txList.set (effIndex s.txList a.actionArg.toNat) (some store.length)) ∧
    ((∀ h ∈ env.funcHashList,
        some h = slotHash store s.txList a.actionArg.toNat ∨
        ∀ fr, env.funcMap h = some fr →
          fr.callFeature = 0 ∧
          fr.varsWritten.toFinset ∩
            laterReads env store s.txList (effIndex s.txList a.actionArg.toNat) = ∅) →
      (mutate env o store s a).2 = none) := by
  have hneg : ¬(a.actionArg < 0 ∨ (env.maxCallNum : Int) ≤ a.actionArg) := by
    push_neg
    exact ⟨h0, hlt⟩
  have hact : (if s.txList.getD (s.txList.length - 1) none = none then (0 : Int)
      else if slotHash store s.txList a.actionArg.toNat = none then 0 else a.actionId) = 0 := by
    split_ifs <;> simp [hid]
  have heq : mutate env o store s a =
      (if env.funcHashList.length ≤ 0 ∨
          (env.funcHashList.length = 1 ∧
            optContains env.funcHashList (slotHash store s.txList a.actionArg.toNat) = true)
        then (store, none)
      else
        let readSet := laterReads env store s.txList (effIndex s.txList a.actionArg.toNat)
        let candidateFunc := env.funcHashList.filter
          (replaceCandidate env (slotHash store s.txList a.actionArg.toNat) readSet)
        if candidateFunc.length = 0 then (store, none)
        else
          (store ++ [generateTx (candidateFunc.getD (o.choiceIdx % candidateFunc.length) "")
              env.defaultAccount o],
           some { staticAnalysis := s.staticAnalysis,
                  txList := s.txList.set (effIndex s.txList a.actionArg.toNat)
                    (some store.length) })) := by
    simp only [mutate, hneg, if_false, hact, ite_true, if_pos, effIndex]
  constructor
  · intro store' s' hmut
    rw [heq] at hmut
    by_cases hearly : env.funcHashList.length ≤ 0 ∨
        (env.funcHashList.length = 1 ∧
          optContains env.funcHashList (slotHash store s.txList a.actionArg.toNat) = true)
    · rw [if_pos hearly] at hmut
      simp at hmut
    · rw [if_neg hearly] at hmut
      simp only at hmut
      by_cases hcand : (env.funcHashList.filter
          (replaceCandidate env (slotHash store s.txList a.actionArg.toNat)
            (laterReads env store s.txList (effIndex s.txList a.actionArg.toNat)))).length = 0
      · rw [if_pos hcand] at hmut
        simp at hmut
      · rw [if_neg hcand] at hmut
        obtain ⟨h1, h2⟩ := Prod.mk.injEq .. ▸ hmut
        obtain rfl := h1.symm
        obtain rfl := (Option.some.inj h2).symm
        set cf := env.funcHashList.filter
          (replaceCandidate env (slotHash store s.txList a.actionArg.toNat)
            (laterReads env store s.txList (effIndex s.txList a.actionArg.toNat))) with hcf
        have hlen : o.choiceIdx % cf.length < cf.length :=
          Nat.mod_lt _ (Nat.pos_of_ne_zero hcand)
        have hmem : cf.getD (o.choiceIdx % cf.length) "" ∈ cf := by
          rw [List.getD_eq_getElem?_getD, List.getElem?_eq_getElem hlen]
          exact List.getElem_mem hlen
        rw [hcf] at hmem
        obtain ⟨hmemF, hpred⟩ := List.mem_filter.mp hmem
        obtain ⟨hne, fr, hfr, hcond⟩ := (replaceCandidate_true_iff _ _ _ _).mp hpred
        refine ⟨_, fr, hmemF, hfr, hcond, ?_, rfl, rfl⟩
        intro h₀ hsl
        by_cases hov : s.txList.getD (s.txList.length - 1) none = none
        · exfalso
          unfold effIndex at hsl
          rw [if_pos hov] at hsl
          unfold slotHash at hsl
          rw [hov] at hsl
          exact Option.noConfusion hsl
        · unfold effIndex at hsl
          rw [if_neg hov] at hsl
          intro hcontra
          exact hne (hcontra ▸ hsl.symm)
  · intro hall
    rw [heq]
    by_cases hearly : env.funcHashList.length ≤ 0 ∨
        (env.funcHashList.length = 1 ∧
          optContains env.funcHashList (slotHash store s.txList a.actionArg.toNat) = true)
    · rw [if_pos hearly]
    · rw [if_neg hearly]
      simp only
      have hnil : env.funcHashList.filter
          (replaceCandidate env (slotHash store s.txList a.actionArg.toNat)
            (laterReads env store s.txList (effIndex s.txList a.actionArg.toNat))) = [] := by
        rw [List.filter_eq_nil_iff]
        intro h hmem
        intro hpred
        obtain ⟨hne, fr, hfr, hcond⟩ := (replaceCandidate_true_iff _ _ _ _).mp hpred
        rcases hall h hmem with hsame | hfail
        · exact hne hsame
        · obtain ⟨hc0, hint⟩ := hfail fr hfr
          rcases hcond with hpos | hnonempty
          · omega
          · rw [hint] at hnonempty
            exact Finset.not_nonempty_empty hnonempty
      rw [hnil]
      simp

def envW3 : Env :=
  { funcHashList := [("f"), ("g")],
    funcMap := fun h =>
      if h = ("g") then some ⟨1, [], []⟩ else if h = ("f") then some ⟨0, [], []⟩ else none,
    payableMap := fun _ => true, accounts := [("a")], defaultAccount := ("a"),
    maxCallNum := 1 }

/-- Witness for the C3 theorem at a concrete two-function contract. -/
theorem mutate_replace_spec_witness :
    (0 : Int) ≤ 0 ∧ (0 : Int) < (envW3.maxCallNum : Int) ∧
    ((∀ store' s', mutate envW3 oTriv storeW8 sW8 ⟨0, 0⟩ = (store', some s') →
      ∃ h fr, h ∈ envW3.funcHashList ∧ envW3.funcMap h = some fr ∧
        (0 < fr.callFeature ∨
          (fr.varsWritten.toFinset ∩
            laterReads envW3 storeW8 sW8.txList (effIndex sW8.txList (0 : Int).toNat)).Nonempty) ∧
        (∀ h₀, slotHash storeW8 sW8.txList (effIndex sW8.txList (0 : Int).toNat) = some h₀ →
          h ≠ h₀) ∧
        store' = storeW8 ++ [generateTx h envW3.defaultAccount oTriv] ∧
        s'.txList = sW8.txList.set (effIndex sW8.txList (0 : Int).toNat)
          (some storeW8.length)) ∧
    ((∀ h ∈ envW3.funcHashList,
        some h = slotHash storeW8 sW8.txList (0 : Int).toNat ∨
        ∀ fr, envW3.funcMap h = some fr →
          fr.callFeature = 0 ∧
          fr.varsWritten.toFinset ∩
            laterReads envW3 storeW8 sW8.txList (effIndex sW8.txList (0 : Int).toNat) = ∅) →
      (mutate envW3 oTriv storeW8 sW8 ⟨0, 0⟩).2 = none)) :=
  ⟨le_refl 0, by decide,
   mutate_replace_spec envW3 oTriv storeW8 sW8 ⟨0, 0⟩ rfl (le_refl 0) (by decide)⟩

theorem getD_append_of_lt {α : Type} [Inhabited α] (l l' : List α) (r : Nat)
    (h : r < l.length) : (l ++ l').getD r default = l.getD r default := by
  rw [List.getD_eq_getElem?_getD, List.getD_eq_getElem?_getD,
    List.getElem?_append_left h]

def envC4 : Env :=
  { funcHashList := [], funcMap := fun _ => none, payableMap := fun _ => true,
    accounts := [("a"), ("b")], defaultAccount := ("a"), maxCallNum := 1 }

def oC4 : MutOracle := { oTriv with randIdx := fun _ => 1 }

/-- C4 counterexample: a successful ModifySender mutation rewrites the
sender of the transaction object that is still referenced by the input
state's txList — the input state is not left unchanged and the slot is
shared, contradicting the claimed copy-on-mutate semantics (Python's
txList = state.txList + [] copies only the slot list). -/
theorem mutate_frame_cex :
    ((mutate envC4 oC4 storeW8 sW8 ⟨2, 0⟩).2).isSome = true ∧
      sW8.txList.getD 0 none = some 0 ∧
      ((mutate envC4 oC4 storeW8 sW8 ⟨2, 0⟩).1.getD 0 default).sender ≠
        (storeW8.getD 0 default).sender := by
  decide

/-- C4 amended: on success, either the (effective) action is Replace — the
store is extended by one fresh transaction, every existing transaction is
unchanged, and the new txList holds the fresh reference at the effective
index — or the action is ModifyArgs/ModifySender/ModifyValue — the
returned txList is reference-identical to the input one and the shared
target transaction is updated in the store in place, in exactly the
corresponding field. -/
theorem mutate_frame (env : Env) (o : MutOracle) (store : List Tx) (s : State)
    (a : Action) (store' : List Tx) (s' : State)
    (hmut : mutate env o store s a = (store', some s')) :
    (∃ tx j, store' = store ++ [tx] ∧
        s'.txList = s.txList.set j (some store.length) ∧
        ∀ r, r < store.length → store'.getD r default = store.getD r default) ∨
    (∃ r old, s.txList.getD a.actionArg.toNat none = some r ∧
        old = store.getD r default ∧ s'.txList = s.txList ∧
        (store' = store.set r { old with args := o.genArgs } ∨
         store' = store.set r { old with sender := (retryDistinct old.sender
             (fun n => env.accounts.getD (o.randIdx n % env.accounts.length) "")
             100 old.sender) } ∨
         store' = store.set r { old with value := (retryDistinct old.value
             o.genVal 100 old.value) })) := by
  by_cases hb : (a.actionArg < 0 ∨ (env.maxCallNum : Int) ≤ a.actionArg)
  · rw [show mutate env o store s a = (store, none) from by
      simp only [mutate, hb, ite_true, if_pos]] at hmut
    simp at hmut
  by_cases hov : s.txList.getD (s.txList.length - 1) none = none
  · -- gap-filling override: Replace at the last index
    have heff : effIndex s.txList a.actionArg.toNat = s.txList.length - 1 := by
      unfold effIndex
      rw [if_pos hov]
    simp only [mutate, hb, if_false, hov, heff, ite_true, ite_false, if_pos] at hmut
    split at hmut
    · simp at hmut
    · split at hmut
      · simp at hmut
      · obtain ⟨hA, hB⟩ := Prod.mk.injEq .. ▸ hmut
        obtain rfl := hA.symm
        obtain rfl := (Option.some.inj hB).symm
        exact Or.inl ⟨_, _, rfl, rfl, fun r' hr' => getD_append_of_lt _ _ _ hr'⟩
  by_cases hq : slotHash store s.txList a.actionArg.toNat = none
  · -- empty target slot: Replace at the decoded index
    simp only [mutate, hb, if_false, hov, hq, ite_true, ite_false, if_pos, if_neg,
      not_false_iff] at hmut
    split at hmut
    · simp at hmut
    · split at hmut
      · simp at hmut
      · obtain ⟨hA, hB⟩ := Prod.mk.injEq .. ▸ hmut
        obtain rfl := hA.symm
        obtain rfl := (Option.some.inj hB).symm
        exact Or.inl ⟨_, _, rfl, rfl, fun r' hr' => getD_append_of_lt _ _ _ hr'⟩
  -- no override fired: effIndex is the decoded index and the slot is occupied
  have heff : effIndex s.txList a.actionArg.toNat = a.actionArg.toNat := by
    unfold effIndex
    rw [if_neg hov]
  obtain ⟨r, hr⟩ : ∃ r, s.txList.getD a.actionArg.toNat none = some r := by
    unfold slotHash at hq
    cases hg : s.txList.getD a.actionArg.toNat none with
    | none => rw [hg] at hq; simp at hq
    | some r => exact ⟨r, rfl⟩
  by_cases h0 : a.actionId = 0
  · -- Replace chosen by the decoded action
    simp only [mutate, hb, if_false, hov, hq, h0, heff, ite_true, ite_false, if_pos,
      if_neg, not_false_iff] at hmut
    split at hmut
    · simp at hmut
    · split at hmut
      · simp at hmut
      · obtain ⟨hA, hB⟩ := Prod.mk.injEq .. ▸ hmut
        obtain rfl := hA.symm
        obtain rfl := (Option.some.inj hB).symm
        exact Or.inl ⟨_, _, rfl, rfl, fun r' hr' => getD_append_of_lt _ _ _ hr'⟩
  by_cases h1 : a.actionId = 1
  · -- ModifyArgs: in-place update of the shared target transaction
    simp only [mutate, hb, if_false, hov, hq, h1, heff, hr, ite_true, ite_false,
      if_pos, if_neg, not_false_iff] at hmut
    rw [if_neg (by decide : ¬((1 : Int) = 0))] at hmut
    obtain ⟨hA, hB⟩ := Prod.mk.injEq .. ▸ hmut
    obtain rfl := hA.symm
    obtain rfl := (Option.some.inj hB).symm
    exact Or.inr ⟨r, _, hr, rfl, rfl, Or.inl rfl⟩
  by_cases h2 : a.actionId = 2
  · -- ModifySender: in-place update of the shared target transaction
    simp only [mutate, hb, if_false, hov, hq, h2, heff, hr, ite_true, ite_false,
      if_pos, if_neg, not_false_iff] at hmut
    rw [if_neg (by decide : ¬((2 : Int) = 0)), if_neg (by decide : ¬((2 : Int) = 1))] at hmut
    obtain ⟨hA, hB⟩ := Prod.mk.injEq .. ▸ hmut
    obtain rfl := hA.symm
    obtain rfl := (Option.some.inj hB).symm
    exact Or.inr ⟨r, _, hr, rfl, rfl, Or.inr (Or.inl rfl)⟩
  by_cases h3 : a.actionId = 3
  · -- ModifyValue: in-place update of the shared target transaction
    simp only [mutate, hb, if_false, hov, hq, h3, heff, hr, ite_true,
      ite_false, if_pos, if_neg, not_false_iff] at hmut
    rw [if_neg (by decide : ¬((3 : Int) = 0)), if_neg (by decide : ¬((3 : Int) = 1)),
      if_neg (by decide : ¬((3 : Int) = 2))] at hmut
    split at hmut
    · simp at hmut
    · obtain ⟨hA, hB⟩ := Prod.mk.injEq .. ▸ hmut
      obtain rfl := hA.symm
      obtain rfl := (Option.some.inj hB).symm
      exact Or.inr ⟨r, _, hr, rfl, rfl, Or.inr (Or.inr rfl)⟩
  · -- unknown action id
    simp only [mutate, hb, if_false, hov, hq, h0, h1, h2, h3, ite_true, ite_false,
      if_pos, if_neg, not_false_iff] at hmut
    simp at hmut

/-- Witness for the amended C4 theorem: a concrete successful ModifySender
mutation, landing in the in-place-update disjunct. -/
theorem mutate_frame_witness :
    mutate envC4 oC4 storeW8 sW8 ⟨2, 0⟩ =
      ([⟨("f"), [], ("b"), 0, []⟩], some ⟨0, [some 0]⟩) ∧
    ((∃ tx j, ([⟨("f"), [], ("b"), 0, []⟩] : List Tx) = storeW8 ++ [tx] ∧
        (⟨0, [some 0]⟩ : State).txList = sW8.txList.set j (some storeW8.length) ∧
        ∀ r, r < storeW8.length →
          ([⟨("f"), [], ("b"), 0, []⟩] : List Tx).getD r default = storeW8.getD r default) ∨
     (∃ r old, sW8.txList.getD (0 : Int).toNat none = some r ∧
        old = storeW8.getD r default ∧
        (⟨0, [some 0]⟩ : State).txList = sW8.txList ∧
        (([⟨("f"), [], ("b"), 0, []⟩] : List Tx) =
            storeW8.set r { old with args := oC4.genArgs } ∨
         ([⟨("f"), [], ("b"), 0, []⟩] : List Tx) =
            storeW8.set r { old with sender := (retryDistinct old.sender
              (fun n => envC4.accounts.getD (oC4.randIdx n % envC4.accounts.length) "")
              100 old.sender) } ∨
         ([⟨("f"), [], ("b"), 0, []⟩] : List Tx) =
            storeW8.set r { old with value := (retryDistinct old.value
              oC4.genVal 100 old.value) }))) :=
  ⟨by decide,
   mutate_frame envC4 oC4 storeW8 sW8 ⟨2, 0⟩
     [⟨("f"), [], ("b"), 0, []⟩] ⟨0, [some 0]⟩ (by decide)⟩

/-! ## Contract loading and caching (Fuzzer.loadContract, fuzzer.py lines 76-115) -/

instance {e a : Type} [DecidableEq e] [DecidableEq a] : DecidableEq (Except e a) :=
  fun x y =>
    match x, y with
    | .error u, .error v =>
      if h : u = v then isTrue (by rw [h]) else isFalse (by intro hc; cases hc; exact h rfl)
    | .error _, .ok _ => isFalse (by intro hc; cases hc)
    | .ok _, .error _ => isFalse (by intro hc; cases hc)
    | .ok u, .ok v =>
      if h : u = v then isTrue (by rw [h]) else isFalse (by intro hc; cases hc; exact h rfl)

/-- One element of `self.contractMap`: a dict
with keys name, contract, abi, report, visited.  The compiled artifact,
the ABI object and the analysis report are opaque and represented by
identifiers. -/
structure CacheEntry where
  name : String
  contract : Nat
  abi : Nat
  report : Nat
  visited : Finset Nat
deriving DecidableEq

/-- Oracle for the failable collaborator calls of `loadContract`, in
source order.  On the cache-miss path: reading the source file, compiling
and deploying via the EVM backend, constructing the `ContractAbi`, running
the static analyzer, and constructing the `MythrilConcolic` executor
(which also performs the dict access contract["runtimeBytecode"]).  On the
cache-hit path: the `ContractAbi` refresh and the `MythrilConcolic`
construction.  An `Except.error` value means that call raised. -/
structure LoadOracle where
  readFile : Except Unit String
  compileRes : Except Unit Nat
  deployRes : Except Unit (Option String)
  abiRes : Except Unit Nat
  staticRes : Except Unit Nat
  mythrilRes : Except Unit Unit
  abiHit : Except Unit Nat
  mythrilHit : Except Unit Unit

/-- Updates the abi field of the cache entry for a filename
(`self.contractMap[filename]["abi"] = ContractAbi(self.contract)`). -/
def updAbi (cm : List (String × CacheEntry)) (filename : String) (abi : Nat) :
    List (String × CacheEntry) :=
  cm.map fun p => if p.1 = filename then (p.1, { p.2 with abi := abi }) else p

/-- `Fuzzer.loadContract` (fuzzer.py lines 76-115), restricted to the
contract cache: the result is the cache after the call together with the
returned boolean; an `Except.error` second component models an exception
propagating out of the method (possible only on the cache-hit path, which
is not protected by the try block).  On the miss path the cache entry is
inserted (with an empty visited set) before the concolic-executor
construction, and the surrounding except-handler only returns False — it
does not roll the insertion back. -/
def loadContract (cm : List (String × CacheEntry)) (filename contract_name : String)
    (o : LoadOracle) : List (String × CacheEntry) × Except Unit Bool :=
  match cm.lookup filename with
  | some _ =>
    -- cache hit: refresh the abi and rebuild the concolic executor
    (match o.abiHit with
     | .error e => (cm, .error e)
     | .ok abi =>
       let cm' := updAbi cm filename abi
       match o.mythrilHit with
       | .error e => (cm', .error e)
       | .ok _ => (cm', .ok true))
  | none =>
    -- try: ... except: return False
    (match o.readFile with
     | .error _ => (cm, .ok false)
     | .ok _ =>
       match o.compileRes with
       | .error _ => (cm, .ok false)
       | .ok contract =>
         match o.deployRes with
         | .error _ => (cm, .ok false)
         | .ok none => (cm, .ok false)
         | .ok (some _) =>
           match o.abiRes with
           | .error _ => (cm, .ok false)
           | .ok abi =>
             match o.staticRes with
             | .error _ => (cm, .ok false)
             | .ok report =>
               let cm' := (filename, (⟨contract_name, contract, abi, report, ∅⟩ : CacheEntry)) :: cm
               match o.mythrilRes with
               | .error _ => (cm', .ok false)
               | .ok _ => (cm', .ok true))

def oC7 : LoadOracle :=
  { readFile := .ok ("pragma"), compileRes := .ok 1, deployRes := .ok (some ("0xa")),
    abiRes := .ok 2, staticRes := .ok 3, mythrilRes := .error (),
    abiHit := .ok 0, mythrilHit := .ok () }

/-- C7 counterexample: a load of an uncached contract that fails in the
final concolic-executor construction returns False, yet the cache entry
for the filename has already been committed and remains in the map. -/
theorem loadContract_commit_cex :
    (([] : List (String × CacheEntry)).lookup ("c.sol")).isNone = true ∧
      (loadContract [] ("c.sol") ("C") oC7).2 = .ok false ∧
      ((loadContract [] ("c.sol") ("C") oC7).1.lookup ("c.sol")).isSome = true := by
  decide

/-- C7 amended: for a filename not in the cache, a failed load returns
False and leaves the cache unchanged whenever the failure occurs before
the cache insertion (file read, compile, deploy, abi construction, static
analysis); only a failure in the concolic-executor construction, which
happens after the insertion, returns False with the fresh cache entry
still committed. -/
theorem loadContract_no_partial_commit (cm : List (String × CacheEntry))
    (filename contract_name : String) (o : LoadOracle)
    (hmiss : cm.lookup filename = none)
    (hfail : (loadContract cm filename contract_name o).2 = .ok false) :
    (loadContract cm filename contract_name o).1 = cm ∨
      (o.mythrilRes = .error () ∧
        ∃ contract abi report, o.compileRes = .ok contract ∧ o.abiRes = .ok abi ∧
          o.staticRes = .ok report ∧
          (loadContract cm filename contract_name o).1 =
            (filename, (⟨contract_name, contract, abi, report, ∅⟩ : CacheEntry)) :: cm) := by
  unfold loadContract at hfail ⊢
  rw [hmiss] at hfail ⊢
  cases hrf : o.readFile with
  | error e => exact Or.inl rfl
  | ok src =>
    rw [hrf] at hfail
    cases hco : o.compileRes with
    | error e => exact Or.inl rfl
    | ok contract =>
      rw [hco] at hfail
      cases hde : o.deployRes with
      | error e => exact Or.inl rfl
      | ok addr =>
        rw [hde] at hfail
        cases addr with
        | none => exact Or.inl rfl
        | some addr' =>
          cases hab : o.abiRes with
          | error e => exact Or.inl rfl
          | ok abi =>
            rw [hab] at hfail
            cases hst : o.staticRes with
            | error e => exact Or.inl rfl
            | ok report =>
              rw [hst] at hfail
              cases hmy : o.mythrilRes with
              | error e =>
                cases e
                exact Or.inr ⟨rfl, contract, abi, report, rfl, rfl, rfl, rfl⟩
              | ok u =>
                rw [hmy] at hfail
                exact absurd hfail (by simp)

def oC7W : LoadOracle := { oC7 with readFile := .error () }

/-- Witness for the amended C7 theorem: a load that fails while reading
the source file commits nothing. -/
theorem loadContract_no_partial_commit_witness :
    (([] : List (String × CacheEntry)).lookup ("d.sol")) = none ∧
      (loadContract [] ("d.sol") ("D") oC7W).2 = .ok false ∧
      ((loadContract [] ("d.sol") ("D") oC7W).1 = [] ∨
        (oC7W.mythrilRes = .error () ∧
          ∃ contract abi report, oC7W.compileRes = .ok contract ∧ oC7W.abiRes = .ok abi ∧
            oC7W.staticRes = .ok report ∧
            (loadContract [] ("d.sol") ("D") oC7W).1 =
              (("d.sol"), (⟨("D"), contract, abi, report, ∅⟩ : CacheEntry)) :: [])) :=
  ⟨rfl, by decide,
   loadContract_no_partial_commit [] ("d.sol") ("D") oC7W rfl (by decide)⟩

/-! ## Seed corpus manager (Fuzzer.loadSeed, fuzzer.py lines 161-199) -/

/-- The per-contract accumulated visited structure: a set of program
counters in plain-coverage mode, or a set of path signatures (opaque
tokens, modelled as finite sets of counters) in path-coverage mode.  The
constructor determines which containment test loadSeed performs, mirroring
the opts["path-coverage"] flag together with the runtime type of the
stored set. -/
inductive VisitedAcc where
  | cov (s : Finset Nat)
  | path (s : Finset (Finset Nat))
deriving DecidableEq

/-- The skip test of loadSeed (lines 172-174): in coverage mode skip when
visited[i] is a subset of the accumulated set, in path mode skip when
visited[i] is a member of the accumulated set. -/
def visitedTest (acc : VisitedAcc) (v : Finset Nat) : Bool :=
  match acc with
  | .cov s => decide (v ⊆ s)
  | .path s => decide (v ∈ s)

/-- The visited update of loadSeed (lines 184-187).  The source unions
visited[i] into the local variable visitedList — read once at line 167 —
and stores the result into the contract map, so successive updates within
one call overwrite one another rather than accumulate. -/
def visitedUpd (acc : VisitedAcc) (v : Finset Nat) : VisitedAcc :=
  match acc with
  | .cov s => .cov (s ∪ v)
  | .path s => .path (insert v s)

/-- The two-level seed store: function hash, then argument key, to the
list of stored values (contractAbi.typeHandlers[hash].seeds). -/
def Seeds : Type := String → String → Option (List Int)

/-- Appending one typed argument to a function's seed store, creating the
list when the key is absent (loadSeed lines 189-193). -/
def addTypedArg (seeds : Seeds) (h : String) (kv : String × Int) : Seeds :=
  fun h' k' =>
    if h' = h ∧ k' = kv.1 then
      match seeds h kv.1 with
      | none => some [kv.2]
      | some l => some (l ++ [kv.2])
    else seeds h' k'

/-- Merging one externally supplied seed: appended only when the argument
key is already present for the function, silently dropped otherwise
(loadSeed lines 195-198). -/
def addExtra (seeds : Seeds) (h : String) (kv : String × Int) : Seeds :=
  if (seeds h kv.1).isSome then
    fun h' k' =>
      if h' = h ∧ k' = kv.1 then some (((seeds h kv.1).getD []) ++ [kv.2])
      else seeds h' k'
  else seeds

/-- The loop of loadSeed over the slot indices.  Both containment tests
and the overwritten visited update use origVisited, the contract entry
read once before the loop.  An Except.error third component is the
IndexError raised by the expression more_seeds[i]; the first two
components are the contract visited entry and the seed store at that
moment — the updates for slot i have already been applied when the access
fails. -/
def loadSeedGo (origVisited : VisitedAcc) (txList : List (Option Tx))
    (visited : List (Finset Nat)) (more_seeds : List (List (String × Int))) :
    List Nat → VisitedAcc × Seeds × Bool → VisitedAcc × Seeds × Except Unit Bool
  | [], (mv, sd, flag) => (mv, sd, .ok flag)
  | i :: rest, (mv, sd, flag) =>
    match txList.getD i none with
    | none => loadSeedGo origVisited txList visited more_seeds rest (mv, sd, flag)
    | some tx =>
      if visitedTest origVisited (visited.getD i ∅) then
        loadSeedGo origVisited txList visited more_seeds rest (mv, sd, flag)
      else
        let mv' := visitedUpd origVisited (visited.getD i ∅)
        let sd' := tx.typedArgs.foldl (fun acc kv => addTypedArg acc tx.hash kv) sd
        if h : i < more_seeds.length then
          loadSeedGo origVisited txList visited more_seeds rest
            (mv', (more_seeds.get ⟨i, h⟩).foldl (fun acc kv => addExtra acc tx.hash kv) sd',
             true)
        else (mv', sd', .error ())

/-- Fuzzer.loadSeed (fuzzer.py lines 161-199): iterate the loop body over
range(len(txList)) starting from the contract's current visited entry, the
current seed store and a false new-path flag. -/
def loadSeed (origVisited : VisitedAcc) (sd0 : Seeds) (txList : List (Option Tx))
    (visited : List (Finset Nat)) (more_seeds : List (List (String × Int))) :
    VisitedAcc × Seeds × Except Unit Bool :=
  loadSeedGo origVisited txList visited more_seeds (List.range txList.length)
    (origVisited, sd0, false)

theorem addTypedArg_mono (seeds : Seeds) (h0 : String) (kv : String × Int)
    (h k : String) (v : Int) (hv : v ∈ (seeds h k).getD []) :
    v ∈ ((addTypedArg seeds h0 kv) h k).getD [] := by
  unfold addTypedArg
  by_cases hc : h = h0 ∧ k = kv.1
  · rw [if_pos hc]
    rw [hc.1, hc.2] at hv
    cases hs : seeds h0 kv.1 with
    | none => rw [hs] at hv; simp at hv
    | some l =>
      rw [hs] at hv
      simp only [Option.getD_some] at hv
      exact List.mem_append_left _ hv
  · rw [if_neg hc]
    exact hv

theorem foldl_addTypedArg_mono (h0 : String) (args : List (String × Int)) (seeds : Seeds)
    (h k : String) (v : Int) (hv : v ∈ (seeds h k).getD []) :
    v ∈ ((args.foldl (fun acc kv => addTypedArg acc h0 kv) seeds) h k).getD [] := by
  induction args generalizing seeds with
  | nil => exact hv
  | cons a rest ih => exact ih _ (addTypedArg_mono seeds h0 a h k v hv)

theorem foldl_addTypedArg_mem (h0 : String) (args : List (String × Int)) (seeds : Seeds) :
    ∀ kv ∈ args,
      kv.2 ∈ ((args.foldl (fun acc kv' => addTypedArg acc h0 kv') seeds) h0 kv.1).getD [] := by
  induction args generalizing seeds with
  | nil => simp
  | cons a rest ih =>
    intro kv hkv
    rcases List.mem_cons.mp hkv with rfl | hkv
    · refine foldl_addTypedArg_mono h0 rest (addTypedArg seeds h0 kv) h0 kv.1 kv.2 ?_
      unfold addTypedArg
      rw [if_pos ⟨rfl, rfl⟩]
      cases hs : seeds h0 kv.1 <;> simp
    · exact ih (addTypedArg seeds h0 a) kv hkv

theorem loadSeedGo_error (origVisited : VisitedAcc) (txList : List (Option Tx))
    (visited : List (Finset Nat)) (more_seeds : List (List (String × Int)))
    (i : Nat) (tx : Tx) (l₂ : List Nat)
    (hi : txList.getD i none = some tx)
    (ht : visitedTest origVisited (visited.getD i ∅) = false)
    (hlen : more_seeds.length ≤ i) :
    ∀ l₁, (∀ j ∈ l₁, txList.getD j none ≠ none →
        visitedTest origVisited (visited.getD j ∅) = false → j < more_seeds.length) →
      ∀ mv sd flag, ∃ sd',
        loadSeedGo origVisited txList visited more_seeds (l₁ ++ i :: l₂) (mv, sd, flag) =
          (visitedUpd origVisited (visited.getD i ∅), sd', .error ()) ∧
        ∀ kv ∈ tx.typedArgs, kv.2 ∈ (sd' tx.hash kv.1).getD [] := by
  intro l₁
  induction l₁ with
  | nil =>
    intro _ mv sd flag
    refine ⟨tx.typedArgs.foldl (fun acc kv => addTypedArg acc tx.hash kv) sd, ?_, ?_⟩
    · simp only [List.nil_append, loadSeedGo, hi, ht, Bool.false_eq_true, if_false,
        ite_false]
      rw [dif_neg (not_lt.mpr hlen)]
    · exact foldl_addTypedArg_mem tx.hash tx.typedArgs sd
  | cons j l₁ ih =>
    intro hpre mv sd flag
    have hpre' : ∀ j' ∈ l₁, txList.getD j' none ≠ none →
        visitedTest origVisited (visited.getD j' ∅) = false → j' < more_seeds.length :=
      fun j' hj' => hpre j' (List.mem_cons_of_mem _ hj')
    cases hj : txList.getD j none with
    | none =>
      obtain ⟨sd', hgo, hmem⟩ := ih hpre' mv sd flag
      refine ⟨sd', ?_, hmem⟩
      simpa only [List.cons_append, loadSeedGo, hj] using hgo
    | some txj =>
      cases htj : visitedTest origVisited (visited.getD j ∅) with
      | true =>
        obtain ⟨sd', hgo, hmem⟩ := ih hpre' mv sd flag
        refine ⟨sd', ?_, hmem⟩
        simpa only [List.cons_append, loadSeedGo, hj, htj, if_true, ite_true] using hgo
      | false =>
        have hjlt : j < more_seeds.length :=
          hpre j (List.mem_cons_self _ _) (by rw [hj]; exact fun hc => Option.noConfusion hc) htj
        obtain ⟨sd', hgo, hmem⟩ := ih hpre'
          (visitedUpd origVisited (visited.getD j ∅))
          ((more_seeds.get ⟨j, hjlt⟩).foldl (fun acc kv => addExtra acc txj.hash kv)
            (txj.typedArgs.foldl (fun acc kv => addTypedArg acc txj.hash kv) sd))
          true
        refine ⟨sd', ?_, hmem⟩
        rw [List.cons_append]
        rw [show loadSeedGo origVisited txList visited more_seeds
            (j :: (l₁ ++ i :: l₂)) (mv, sd, flag) =
          loadSeedGo origVisited txList visited more_seeds (l₁ ++ i :: l₂)
            (visitedUpd origVisited (visited.getD j ∅),
             (more_seeds.get ⟨j, hjlt⟩).foldl (fun acc kv => addExtra acc txj.hash kv)
               (txj.typedArgs.foldl (fun acc kv => addTypedArg acc txj.hash kv) sd),
             true) from by
          simp only [loadSeedGo, hj, htj, Bool.false_eq_true, if_false, ite_false]
          rw [dif_pos hjlt]]
        exact hgo

theorem range_split (n i : Nat) (h : i < n) :
    ∃ l₂, List.range n = List.range i ++ i :: l₂ := by
  refine ⟨(List.range (n - i - 1)).map (fun k => i + (k + 1)), ?_⟩
  have h1 : n = i + ((n - i - 1) + 1) := by omega
  rw [h1, List.range_add, List.range_succ_eq_map]
  simp [List.map_map, Function.comp_def]

/-- C10: whenever some slot i holds a transaction that passes the
new-path test while more_seeds is too short (in particular with the
default more_seeds = []), loadSeed raises IndexError at the first such
slot instead of returning a boolean, and at that moment the contract's
visited entry has already been set to origVisited updated with visited[i]
and the seed lists already hold the values of that transaction's typed
arguments — the failure is not atomic. -/
theorem loadSeed_indexError (origVisited : VisitedAcc) (sd0 : Seeds)
    (txList : List (Option Tx)) (visited : List (Finset Nat))
    (more_seeds : List (List (String × Int))) (i : Nat) (tx : Tx)
    (hilt : i < txList.length)
    (hi : txList.getD i none = some tx)
    (ht : visitedTest origVisited (visited.getD i ∅) = false)
    (hlen : more_seeds.length ≤ i)
    (hpre : ∀ j, j < i → txList.getD j none ≠ none →
      visitedTest origVisited (visited.getD j ∅) = false → j < more_seeds.length) :
    ∃ sd', loadSeed origVisited sd0 txList visited more_seeds =
        (visitedUpd origVisited (visited.getD i ∅), sd', .error ()) ∧
      ∀ kv ∈ tx.typedArgs, kv.2 ∈ (sd' tx.hash kv.1).getD [] := by
  unfold loadSeed
  obtain ⟨l₂, hsplit⟩ := range_split txList.length i hilt
  rw [hsplit]
  exact loadSeedGo_error origVisited txList visited more_seeds i tx l₂ hi ht hlen
    (List.range i) (fun j hj hne hjt => hpre j (List.mem_range.mp hj) hne hjt)
    origVisited sd0 false

def txW10 : Tx := ⟨("f"), [], ("s"), 0, [(("uint256"), 7)]⟩

/-- Witness for the C10 theorem: one occupied slot, a fresh program
counter, and the default empty extra-seed list. -/
theorem loadSeed_indexError_witness :
    (0 < ([some txW10] : List (Option Tx)).length) ∧
      visitedTest (.cov ∅) (([({1} : Finset Nat)] : List (Finset Nat)).getD 0 ∅) = false ∧
      (∃ sd', loadSeed (.cov ∅) (fun _ _ => none) [some txW10] [({1} : Finset Nat)] [] =
          (visitedUpd (.cov ∅) (([({1} : Finset Nat)] : List (Finset Nat)).getD 0 ∅),
           sd', .error ()) ∧
        ∀ kv ∈ txW10.typedArgs, kv.2 ∈ (sd' txW10.hash kv.1).getD []) :=
  ⟨by decide, by decide,
   loadSeed_indexError (.cov ∅) (fun _ _ => none) [some txW10] [({1} : Finset Nat)] [] 0
     txW10 (by decide) rfl (by decide) (le_refl 0)
     (fun j hj _ _ => absurd hj (by omega))⟩

/-! ## Episode controller (Fuzzer.step, fuzzer.py lines 337-416)

The control flow of step is embedded with a value-level state (the heap
structure used for mutate is irrelevant here) and an oracle of
Except-valued collaborator results: an Except.error value means that call
raised.  The TraceAnalyzer consumed by fuzzer.py (whose run returns
reward, report, pcs, seeds and paths, and whose path_variaty returns a
4-tuple) is a newer version than the trace.py in the analysed sources, so
its outputs are oracle values shaped after section 4.2 of the design. -/

/-- The trainer State as read by step: static analysis report (opaque) and
the transaction list, by value. -/
structure StateV where
  staticAnalysis : Nat
  txList : List (Option Tx)
deriving DecidableEq

/-- A finding: a plain detector report entry, or an Exploit carrying a
transaction list (step overwrites the txList attribute of Exploit
findings). -/
inductive Finding where
  | vuln (kind : String)
  | exploitF (kind : String) (txList : List (Option Tx))
deriving DecidableEq

/-- The attach loop of step lines 392-394: every Exploit finding receives
the executed transaction list. -/
def attachTxList (txs : List (Option Tx)) : Finding → Finding
  | .vuln k => .vuln k
  | .exploitF k _ => .exploitF k txs

/-- The FUZZ_CONFIG / CONCOLIC_CONFIG entries read by step. -/
structure FuzzConfig where
  maxAttempt : Nat
  validMutationReward : ℚ
  pathDiscoveryReward : ℚ
  exploitReward : ℚ
  accountBalance : Nat
  concolicReward : ℚ
  concolicPenalty : ℚ

/-- The option flags of the Fuzzer constructor. -/
structure Opts where
  exploit : Bool
  concolic : Bool
  pathCoverage : Bool

/-- The mutable Fuzzer attributes read or written by step. -/
structure FuzzerSt where
  counter : Nat
  state : StateV
  traces : List (List TraceState)
  report : List Finding
  concolicCnt : Nat
  concolicWait : Nat
deriving DecidableEq

/-- The 5-tuple returned by step: encoded state, sequence length, reward,
done flag and timeout flag. -/
structure StepOut where
  enc : Nat
  seqLen : Nat
  reward : ℚ
  done : Nat
  timeout : Nat
deriving DecidableEq

/-- Oracle results for the collaborator calls inside step, in source
order: coverage() before the try; the concolic-branch path_variaty and
mythrilConcolic.run; decodeAction and mutate; runTxs; traceAnalyzer.run
(reward, report, pcs, seeds, paths); loadSeed; getAccounts balances
(already parsed from hex); coverage() at line 399; encodeState inside the
try (as a function of the encoded state); the final path_variaty call of
line 410; and encodeState as invoked by the except handler. -/
structure StepOracle where
  cov1 : Except Unit ℚ
  pvConc : Except Unit (Finset Nat)
  mythril : Finset Nat → Except Unit (List (Option Tx))
  decodeA : Except Unit Unit
  mutateRes : Except Unit (Option StateV)
  runTxsRes : Except Unit (List (List TraceState))
  analyze : Except Unit
    (ℚ × List Finding × List (Finset Nat) × List (List (String × Int)) × List (Finset Nat))
  loadSeedRes : Except Unit Bool
  accountsAfter : Except Unit (List Nat)
  cov2 : Except Unit ℚ
  encodeB : StateV → Except Unit (Nat × Nat)
  pv2 : Except Unit Unit
  encodeH : StateV → Except Unit (Nat × Nat)

/-- The data accumulated by the try body up to the state commit of line
405: the fuzzer state after the pre-commit writes (self.traces at line
371, the escalation bookkeeping of lines 399-403), the candidate state,
its traces, the accumulated reward, the findings produced during this
step, and the done and timeout flags. -/
structure PreOut where
  fz : FuzzerSt
  nextState : StateV
  traces2 : List (List TraceState)
  reward : ℚ
  produced : List Finding
  done : Nat
  timeout : Nat
deriving DecidableEq

/-- Lines 349-362 of step: either the concolic escalation (when enabled
and the stagnation counter has reached the threshold) or action decoding
followed by mutation, producing the candidate next state and the fuzzer
state after the escalation bookkeeping of lines 357-359. -/
def selectCandidate (cfg : FuzzConfig) (opts : Opts) (fz : FuzzerSt) (o : StepOracle) :
    Except FuzzerSt (FuzzerSt × Option StateV) :=
  if opts.concolic ∧ fz.concolicWait ≤ fz.concolicCnt then
    match o.pvConc with
    | .error _ => .error fz
    | .ok jumpi =>
      match o.mythril jumpi with
      | .error _ => .error fz
      | .ok result =>
        let nextState : Option StateV :=
          if 0 < result.length then some ⟨fz.state.staticAnalysis, result⟩ else none
        let fzA := { fz with concolicCnt := 0 }
        let fzB := if nextState.isSome then
            { fzA with concolicWait := max 1 (Nat.floor ((fzA.concolicWait : ℚ) / cfg.concolicReward / cfg.concolicPenalty)) }
          else fzA
        .ok (fzB, nextState)
  else
    match o.decodeA with
    | .error _ => .error fz
    | .ok _ =>
      match o.mutateRes with
      | .error _ => .error fz
      | .ok nextState => .ok (fz, nextState)

/-- Lines 344-403 of step: everything inside the try block before the
commit of self.state.  The error value carries the fuzzer state at the
moment of the exception; a Sum.inl result is the early return of lines
364-366 (no candidate state); a Sum.inr result is the data handed to the
commit phase. -/
def stepPre (cfg : FuzzConfig) (opts : Opts) (fz : FuzzerSt) (p_coverage : ℚ)
    (o : StepOracle) : Except FuzzerSt (Sum (FuzzerSt × StepOut) PreOut) :=
  let timeout : Nat := if cfg.maxAttempt ≤ fz.counter then 1 else 0
  match selectCandidate cfg opts fz o with
  | .error fzE => .error fzE
  | .ok (fzc, none) =>
    (match o.encodeB fzc.state with
     | .error _ => .error fzc
     | .ok (e, sl) => .ok (.inl (fzc, ⟨e, sl, 0, 0, timeout⟩)))
  | .ok (fzc, some nextState) =>
    match o.runTxsRes with
    | .error _ => .error fzc
    | .ok traces =>
      match o.analyze with
      | .error _ => .error fzc
      | .ok (reward0, report0, _pcs, _seeds, _paths) =>
        let fzd := { fzc with traces := traces }
        let reward1 := reward0 + cfg.validMutationReward
        match o.loadSeedRes with
        | .error _ => .error fzd
        | .ok newPath =>
          let reward2 := if newPath then reward1 + cfg.pathDiscoveryReward else reward1
          match
            (if opts.exploit then
              match o.accountsAfter with
              | .error _ => .error fzd
              | .ok balances =>
                let bal_p := balances.length * cfg.accountBalance
                let bal := balances.sum
                if bal_p < bal then
                  .ok (reward2 + cfg.exploitReward,
                    report0 ++ [.exploitF ("BalanceIncrement") nextState.txList])
                else .ok (reward2, report0)
            else .ok (reward2, report0) : Except FuzzerSt (ℚ × List Finding))
          with
          | .error fzE => .error fzE
          | .ok (reward3, report1) =>
            let report2 := report1.map (attachTxList nextState.txList)
            let done : Nat := if 0 < report2.length then 1 else 0
            match o.cov2 with
            | .error _ => .error fzd
            | .ok c =>
              let fze := if p_coverage = c then
                  { fzd with concolicCnt := fzd.concolicCnt + 1 }
                else
                  { fzd with
                    concolicCnt := 0
                    concolicWait := Nat.floor ((fzd.concolicWait : ℚ) * cfg.concolicPenalty) }
              .ok (.inr ⟨fze, nextState, traces, reward3, report2, done, timeout⟩)

/-- Lines 405-412 of step: commit self.state, self.traces and the
deduplicated report, then encode the new state and run the final
path_variaty diagnostic.  The third result component records the findings
produced during this step, exposed by the Python code through
self.report. -/
def stepPost (o : StepOracle) (p : PreOut) :
    Except FuzzerSt (FuzzerSt × StepOut × List Finding) :=
  let fzf := { p.fz with
               state := p.nextState
               traces := p.traces2
               report := (p.fz.report ++ p.produced).dedup }
  match o.encodeB fzf.state with
  | .error _ => .error fzf
  | .ok (e, sl) =>
    match o.pv2 with
    | .error _ => .error fzf
    | .ok _ => .ok (fzf, ⟨e, sl, p.reward, p.done, p.timeout⟩, p.produced)

/-- The whole try block of step (lines 344-412). -/
def stepTry (cfg : FuzzConfig) (opts : Opts) (fz : FuzzerSt) (p_coverage : ℚ)
    (o : StepOracle) : Except FuzzerSt (FuzzerSt × StepOut × List Finding) :=
  match stepPre cfg opts fz p_coverage o with
  | .error fzE => .error fzE
  | .ok (.inl (fz', out)) => .ok (fz', out, [])
  | .ok (.inr p) => stepPost o p

/-- Fuzzer.step (fuzzer.py lines 337-416): increment the attempt counter,
record coverage (outside the try: a failure there propagates), run the
try body, and on an exception encode self.state as it is at catch time
and return it with reward 0, done 0 and timeout 1; an exception from the
handler's own encodeState propagates. -/
def step (cfg : FuzzConfig) (opts : Opts) (fz : FuzzerSt) (o : StepOracle) :
    FuzzerSt × Except Unit StepOut :=
  let fz1 := { fz with counter := fz.counter + 1 }
  match o.cov1 with
  | .error e => (fz1, .error e)
  | .ok p_coverage =>
    match stepTry cfg opts fz1 p_coverage o with
    | .ok (fz2, out, _) => (fz2, .ok out)
    | .error fzE =>
      match o.encodeH fzE.state with
      | .error e => (fzE, .error e)
      | .ok (e, sl) => (fzE, .ok ⟨e, sl, 0, 0, 1⟩)

theorem selectCandidate_error (cfg : FuzzConfig) (opts : Opts) (fz : FuzzerSt)
    (o : StepOracle) (fzE : FuzzerSt)
    (h : selectCandidate cfg opts fz o = .error fzE) : fzE = fz := by
  unfold selectCandidate at h
  split at h
  · split at h
    · exact (Except.error.inj h).symm
    · split at h
      · exact (Except.error.inj h).symm
      · exact Except.noConfusion h
  · split at h
    · exact (Except.error.inj h).symm
    · split at h
      · exact (Except.error.inj h).symm
      · exact Except.noConfusion h

theorem selectCandidate_ok_state (cfg : FuzzConfig) (opts : Opts) (fz : FuzzerSt)
    (o : StepOracle) (fzc : FuzzerSt) (ns : Option StateV)
    (h : selectCandidate cfg opts fz o = .ok (fzc, ns)) : fzc.state = fz.state := by
  unfold selectCandidate at h
  split at h
  · split at h
    · exact Except.noConfusion h
    · split at h
      · exact Except.noConfusion h
      · obtain ⟨h1, h2⟩ := Prod.mk.injEq .. ▸ Except.ok.inj h
        rw [← h1]
        split <;> rfl
  · split at h
    · exact Except.noConfusion h
    · split at h
      · exact Except.noConfusion h
      · obtain ⟨h1, h2⟩ := Prod.mk.injEq .. ▸ Except.ok.inj h
        rw [← h1]

theorem stepPre_error_state (cfg : FuzzConfig) (opts : Opts) (fz : FuzzerSt) (p : ℚ)
    (o : StepOracle) (fzE : FuzzerSt)
    (h : stepPre cfg opts fz p o = .error fzE) : fzE.state = fz.state := by
  simp only [stepPre] at h
  split at h
  next fzE' heq =>
    obtain rfl := Except.error.inj h
    rw [selectCandidate_error cfg opts fz o fzE' heq]
  next fzc heq =>
    split at h
    · obtain rfl := Except.error.inj h
      exact selectCandidate_ok_state cfg opts fz o fzc none heq
    · exact Except.noConfusion h
  next fzc ns heq =>
    have hst : fzc.state = fz.state := selectCandidate_ok_state cfg opts fz o fzc (some ns) heq
    split at h
    · obtain rfl := Except.error.inj h
      exact hst
    · split at h
      · obtain rfl := Except.error.inj h
        exact hst
      · split at h
        · obtain rfl := Except.error.inj h
          exact hst
        · split at h
          · next fzE' heq =>
              obtain rfl := Except.error.inj h
              split at heq
              · split at heq
                · obtain rfl := Except.error.inj heq
                  exact hst
                · split at heq
                  · exact Except.noConfusion heq
                  · exact Except.noConfusion heq
              · exact Except.noConfusion heq
          · split at h
            · obtain rfl := Except.error.inj h
              exact hst
            · exact Except.noConfusion h

theorem stepPre_ok_inl (cfg : FuzzConfig) (opts : Opts) (fz : FuzzerSt) (p : ℚ)
    (o : StepOracle) (fz2 : FuzzerSt) (out : StepOut)
    (h : stepPre cfg opts fz p o = .ok (.inl (fz2, out))) :
    out.done = 0 ∧ out.reward = 0 ∧
      out.timeout = (if cfg.maxAttempt ≤ fz.counter then 1 else 0) := by
  simp only [stepPre] at h
  split at h
  · exact Except.noConfusion h
  · split at h
    · exact Except.noConfusion h
    · obtain hout := Sum.inl.inj (Except.ok.inj h)
      obtain ⟨h1, h2⟩ := Prod.mk.injEq .. ▸ hout
      obtain rfl := h2.symm
      exact ⟨rfl, rfl, rfl⟩
  · split at h
    · exact Except.noConfusion h
    · split at h
      · exact Except.noConfusion h
      · split at h
        · exact Except.noConfusion h
        · split at h
          · exact Except.noConfusion h
          · split at h
            · exact Except.noConfusion h
            · exact Sum.noConfusion (Except.ok.inj h)

theorem stepPre_ok_inr (cfg : FuzzConfig) (opts : Opts) (fz : FuzzerSt) (p : ℚ)
    (o : StepOracle) (pr : PreOut)
    (h : stepPre cfg opts fz p o = .ok (.inr pr)) :
    pr.done = (if 0 < pr.produced.length then 1 else 0) ∧
      pr.timeout = (if cfg.maxAttempt ≤ fz.counter then 1 else 0) := by
  simp only [stepPre] at h
  split at h
  · exact Except.noConfusion h
  · split at h
    · exact Except.noConfusion h
    · exact Sum.noConfusion (Except.ok.inj h)
  · split at h
    · exact Except.noConfusion h
    · split at h
      · exact Except.noConfusion h
      · split at h
        · exact Except.noConfusion h
        · split at h
          · exact Except.noConfusion h
          · split at h
            · exact Except.noConfusion h
            · obtain rfl := (Sum.inr.inj (Except.ok.inj h)).symm
              exact ⟨rfl, rfl⟩

/-- C5 amended: for every step body that completes without an internal
failure, done = 1 exactly when at least one finding was produced during
this step; reaching the configured attempt maximum is signalled through
the timeout flag instead — timeout = 1 exactly when the incremented
attempt counter has reached FUZZ_CONFIG["max_attempt"]. -/
theorem step_done_iff (cfg : FuzzConfig) (opts : Opts) (fz : FuzzerSt) (p : ℚ)
    (o : StepOracle) (fz' : FuzzerSt) (out : StepOut) (produced : List Finding)
    (h : stepTry cfg opts fz p o = .ok (fz', out, produced)) :
    (out.done = 1 ↔ produced ≠ []) ∧
    (out.timeout = 1 ↔ cfg.maxAttempt ≤ fz.counter) := by
  unfold stepTry at h
  cases hpre : stepPre cfg opts fz p o with
  | error fzE =>
    rw [hpre] at h
    exact Except.noConfusion h
  | ok v =>
    rw [hpre] at h
    cases v with
    | inl pair =>
      obtain ⟨fz2, out2⟩ := pair
      obtain ⟨hfz, hrest⟩ := Prod.mk.injEq .. ▸ Except.ok.inj h
      obtain ⟨hout, hprod⟩ := Prod.mk.injEq .. ▸ hrest
      obtain rfl := hout
      obtain rfl := hprod
      obtain ⟨hd, _, ht⟩ := stepPre_ok_inl cfg opts fz p o fz2 out2 hpre
      constructor
      · rw [hd]
        simp
      · rw [ht]
        by_cases hca : cfg.maxAttempt ≤ fz.counter <;> simp [hca]
    | inr pr =>
      have h2 : stepPost o pr = Except.ok (fz', out, produced) := h
      simp only [stepPost] at h2
      split at h2
      · exact Except.noConfusion h2
      · split at h2
        · exact Except.noConfusion h2
        · obtain ⟨hfz, hrest⟩ := Prod.mk.injEq .. ▸ Except.ok.inj h2
          obtain ⟨hout, hprod⟩ := Prod.mk.injEq .. ▸ hrest
          obtain rfl := hout
          obtain rfl := hprod
          obtain ⟨hd, ht⟩ := stepPre_ok_inr cfg opts fz p o pr hpre
          constructor
          · show pr.done = 1 ↔ pr.produced ≠ []
            rw [hd]
            cases pr.produced <;> simp
          · show pr.timeout = 1 ↔ cfg.maxAttempt ≤ fz.counter
            rw [ht]
            by_cases hca : cfg.maxAttempt ≤ fz.counter <;> simp [hca]

def cfgC5 : FuzzConfig :=
  { maxAttempt := 1, validMutationReward := 0, pathDiscoveryReward := 0,
    exploitReward := 0, accountBalance := 0, concolicReward := 1, concolicPenalty := 1 }

def optsOff : Opts := { exploit := false, concolic := false, pathCoverage := false }

def stV0 : StateV := ⟨0, []⟩

def stV1 : StateV := ⟨0, [some txW10]⟩

def fzC5 : FuzzerSt :=
  { counter := 5, state := stV0, traces := [], report := [], concolicCnt := 0,
    concolicWait := 1 }

def fzC5' : FuzzerSt :=
  { counter := 5, state := stV1, traces := [], report := [], concolicCnt := 1,
    concolicWait := 1 }

def oC5 : StepOracle :=
  { cov1 := .ok 0, pvConc := .ok ∅, mythril := fun _ => .ok [], decodeA := .ok (),
    mutateRes := .ok (some stV1), runTxsRes := .ok [], analyze := .ok (0, [], [], [], []),
    loadSeedRes := .ok false, accountsAfter := .ok [], cov2 := .ok 0,
    encodeB := fun _ => .ok (1, 1), pv2 := .ok (), encodeH := fun _ => .ok (9, 9) }

theorem stepTry_eval_noFinding :
    stepTry cfgC5 optsOff fzC5 0 oC5 = .ok (fzC5', ⟨1, 1, 0, 0, 1⟩, []) := by
  simp [stepTry, stepPre, stepPost, selectCandidate, cfgC5, optsOff, fzC5, fzC5', oC5,
    stV0, stV1, attachTxList]

/-- C5 counterexample: a step body that completes without internal
failure, with the attempt counter past the configured maximum and no
finding produced, returns done = 0 (and timeout = 1): the attempt cap
does not set the done flag, contradicting the claimed disjunction. -/
theorem step_done_cex :
    stepTry cfgC5 optsOff fzC5 0 oC5 = .ok (fzC5', ⟨1, 1, 0, 0, 1⟩, []) ∧
      cfgC5.maxAttempt ≤ fzC5.counter ∧
      ¬((0 : Nat) = 1 ↔ (([] : List Finding) ≠ [] ∨ cfgC5.maxAttempt ≤ fzC5.counter)) := by
  refine ⟨stepTry_eval_noFinding, by decide, ?_⟩
  intro hiff
  exact absurd (hiff.mpr (Or.inr (by decide))) (by decide)

/-- Witness for the amended C5 theorem at the concrete no-finding,
past-the-cap step. -/
theorem step_done_iff_witness :
    stepTry cfgC5 optsOff fzC5 0 oC5 = .ok (fzC5', ⟨1, 1, 0, 0, 1⟩, []) ∧
      (((⟨1, 1, 0, 0, 1⟩ : StepOut).done = 1 ↔ ([] : List Finding) ≠ []) ∧
       ((⟨1, 1, 0, 0, 1⟩ : StepOut).timeout = 1 ↔ cfgC5.maxAttempt ≤ fzC5.counter)) :=
  ⟨stepTry_eval_noFinding,
   step_done_iff cfgC5 optsOff fzC5 0 oC5 fzC5' ⟨1, 1, 0, 0, 1⟩ [] stepTry_eval_noFinding⟩

/-- C6 amended: every exception inside the try body is caught — step then
returns reward 0, done 0, timeout 1, with the encoding of self.state as it
is at catch time — and self.state is still the previous, unchanged state
for every exception raised before the commit of line 405 (the whole
pre-commit phase); an exception raised after the commit is also caught but
the handler then encodes the already-committed new state, and a failure of
the handler's own encodeState (or of the pre-try coverage computation)
propagates. -/
theorem step_catch_spec (cfg : FuzzConfig) (opts : Opts) (fz : FuzzerSt) (o : StepOracle) :
    (∀ p fzE, stepPre cfg opts { fz with counter := fz.counter + 1 } p o = .error fzE →
      fzE.state = fz.state) ∧
    (∀ p_coverage fzE e sl, o.cov1 = .ok p_coverage →
      stepTry cfg opts { fz with counter := fz.counter + 1 } p_coverage o = .error fzE →
      o.encodeH fzE.state = .ok (e, sl) →
      step cfg opts fz o = (fzE, .ok ⟨e, sl, 0, 0, 1⟩)) := by
  constructor
  · intro p fzE h
    exact stepPre_error_state cfg opts { fz with counter := fz.counter + 1 } p o fzE h
  · intro p_coverage fzE e sl hcov htry henc
    simp only [step, hcov, htry, henc]

def fzC6 : FuzzerSt :=
  { counter := 0, state := stV0, traces := [], report := [], concolicCnt := 0,
    concolicWait := 1 }

def fzfC6 : FuzzerSt :=
  { counter := 1, state := stV1, traces := [], report := [], concolicCnt := 1,
    concolicWait := 1 }

def oC6 : StepOracle :=
  { oC5 with encodeB := fun _ => .error (),
             encodeH := fun st => if st = stV1 then .ok (7, 1) else .ok (3, 1) }

/-- C6 counterexample: an exception raised by the encodeState call after
the state commit is caught, and step returns reward 0, done 0, timeout 1 —
but with the encoding of the new, committed state (7), not the encoding of
the previous state (3): the previous-state part of the claim fails for
post-commit exceptions. -/
theorem step_prev_state_cex :
    stepTry cfgC5 optsOff { fzC6 with counter := fzC6.counter + 1 } 0 oC6 = .error fzfC6 ∧
      step cfgC5 optsOff fzC6 oC6 = (fzfC6, .ok ⟨7, 1, 0, 0, 1⟩) ∧
      oC6.encodeH fzC6.state = .ok (3, 1) ∧ (7 : Nat) ≠ 3 := by
  refine ⟨by decide, by decide, by decide, by decide⟩

def oC6W : StepOracle := { oC5 with mutateRes := .error () }

/-- Witness for the amended C6 theorem: a failure inside mutate is caught
with the previous state intact, and step returns its encoding with
reward 0, done 0, timeout 1. -/
theorem step_catch_spec_witness :
    ((stepPre cfgC5 optsOff { fzC6 with counter := fzC6.counter + 1 } 0 oC6W =
        .error { fzC6 with counter := fzC6.counter + 1 }) ∧
      ({ fzC6 with counter := fzC6.counter + 1 } : FuzzerSt).state = fzC6.state) ∧
    (oC6W.cov1 = .ok 0 ∧
      stepTry cfgC5 optsOff { fzC6 with counter := fzC6.counter + 1 } 0 oC6W =
        .error { fzC6 with counter := fzC6.counter + 1 } ∧
      oC6W.encodeH (({ fzC6 with counter := fzC6.counter + 1 } : FuzzerSt).state) = .ok (9, 9) ∧
      step cfgC5 optsOff fzC6 oC6W =
        ({ fzC6 with counter := fzC6.counter + 1 }, .ok ⟨9, 9, 0, 0, 1⟩)) :=
  ⟨⟨by decide,
    (step_catch_spec cfgC5 optsOff fzC6 oC6W).1 0 { fzC6 with counter := fzC6.counter + 1 }
      (by decide)⟩,
   ⟨by decide, by decide, by decide,
    (step_catch_spec cfgC5 optsOff fzC6 oC6W).2 0 { fzC6 with counter := fzC6.counter + 1 }
      9 9 (by decide) (by decide) (by decide)⟩⟩

end PyFuzz
